import Mathlib

/-
Verification of the inlay-hints synchronization engine in src/inlay_hints.ts
(class HintsUpdater and the surrounding activation glue).

The TypeScript engine is embedded shallowly.  The single-threaded
cooperative-scheduling model of the runtime is made explicit: each
synchronous segment of the TypeScript (from one suspension point to the
next) becomes a pure state-transformer on `SysState`, and the in-flight
backend requests spawned by `fetchHints` become `FetchTask` records in the
state; a later, nondeterministically scheduled `fetchResolve` step runs the
`.catch`/`.finally`/`.then` completion chain of one task.  `await` points
whose possible interleavings are not distinguishable by any property proved
below are collapsed into the enclosing segment.

The editor primitives (buffers, namespaces, virtual text) are embedded as a
rendering sink `overlays : String -> List Overlay` keyed by document uri;
`CancellationTokenSource` objects are embedded as natural-number tokens
drawn from the monotone counter `nextToken`, with `cancel()` recording the
token in the `cancelled` list.
-/

namespace InlayHints

/-- Modelled from the spec: the hint kinds produced by the backend
(`ra.InlayHint.Kind` lives in lsp_ext.ts, which is not part of the engine
file): type hints, parameter hints and chaining hints. -/
inductive Kind where
  | TypeHint
  | ParameterHint
  | ChainingHint
deriving DecidableEq, Repr

structure Position where
  line : Nat
  character : Nat
deriving DecidableEq, Repr

structure Range where
  start : Position
  «end» : Position
deriving DecidableEq, Repr

/-- Modelled from the spec: a hint (produced by the backend, immutable once
received) carries a kind, a display label, and a source range; the engine
anchors the overlay at the line of the range's end (`item.range.end.line`). -/
structure InlayHint where
  kind : Kind
  label : String
  range : Range
deriving DecidableEq, Repr

/-- interface InlaysDecorations (src/inlay_hints.ts lines 6-10): the
ephemeral per-render grouping of hints by kind. -/
structure InlaysDecorations where
  type : List InlayHint
  param : List InlayHint
  chaining : List InlayHint
deriving Repr

/-- interface RustSourceFile (src/inlay_hints.ts lines 12-19).
`inlaysRequest` holds the token of the in-flight request, if any;
`document` is the RustDocument, embedded by its uri. -/
structure RustSourceFile where
  inlaysRequest : Option Nat
  document : String
deriving DecidableEq, Repr

/-- One virtual-text chunk written by `doc.buffer.setVirtualText`:
the anchor line, the text `separator ++ label`, and the highlight group. -/
structure Overlay where
  line : Nat
  text : String
  hlGroup : String
deriving DecidableEq, Repr

/-- The recognized `ctx.config.inlayHints` options (spec section 6). -/
structure Config where
  chainingHints : Bool
  typeHints : Bool
  chainingHintsSeparator : String
  typeHintsSeparator : String
  refreshOnInsertMode : Bool
deriving DecidableEq, Repr

/-- One in-flight backend request, spawned by `fetchHints`.  `uri` is the
key under which `syncAndRenderHints` iterated the document (also the uri
sent to the backend); `token` identifies the `CancellationTokenSource`
allocated for this request; `current` is the uri of `workspace.document`
as captured by the enclosing `syncAndRenderHints` pass (`none` when no
document was focused), against which the `.then` handler compares. -/
structure FetchTask where
  uri : String
  token : Nat
  current : Option String
deriving DecidableEq, Repr

/-- The whole engine plus the parts of the editor it interacts with.
`sourceFiles`, `inlayHintsEnabled`, `listenersAttached` are `HintsUpdater`
fields (`listenersAttached` reflects whether the two `workspace.on*`
listeners pushed onto `this.disposables` are still registered; the
`events.on('InsertLeave')` listener is never added to `disposables` and so
is always live).  `overlays` is the rendering sink (per-uri contents of the
`rust-inlay-hint` namespace), `tasks` the pool of unresolved backend
requests, `activeDoc` the uri of `workspace.document`, `insertMode` the
editor's `workspace.insertMode`, `isRust` the `isRustDocument` predicate,
and `nextToken`/`cancelled` embed cancellation-token identity. -/
structure SysState where
  sourceFiles : List (String × RustSourceFile)
  nextToken : Nat
  cancelled : List Nat
  inlayHintsEnabled : Bool
  listenersAttached : Bool
  overlays : String → List Overlay
  tasks : List FetchTask
  activeDoc : Option String
  insertMode : Bool
  config : Config
  isRust : String → Bool

/-- First-match lookup in an association list (JS `Map.get`; keys are kept
unique by construction). -/
def lookupKV {α : Type} (l : List (String × α)) (k : String) : Option α :=
  match l with
  | [] => none
  | (k', v) :: rest => if k' = k then some v else lookupKV rest k

/-- JS `Map.set`: replace the value in place if the key is present,
otherwise append the new entry. -/
def setKV {α : Type} (l : List (String × α)) (k : String) (v : α) : List (String × α) :=
  match l with
  | [] => [(k, v)]
  | (k', v') :: rest => if k' = k then (k, v) :: rest else (k', v') :: setKV rest k v

/-- `doc.buffer.clearNamespace(this.inlayHintsNS)` for the buffer of `uri`. -/
def clearNamespace (uri : String) (s : SysState) : SysState :=
  { s with overlays := fun u => if u = uri then [] else s.overlays u }

/-- `doc.buffer.setVirtualText(this.inlayHintsNS, line, chunks, {})` for the
buffer of `uri`: appends one overlay to that buffer's namespace. -/
def setVirtualText (uri : String) (line : Nat) (text : String) (hlGroup : String)
    (s : SysState) : SysState :=
  { s with overlays := fun u =>
      if u = uri then s.overlays u ++ [⟨line, text, hlGroup⟩] else s.overlays u }

/-- One iteration of the partitioning loop of `renderHints` (lines
116-127): push a type hint or a chaining hint into its bucket, skip every
other kind (`default: continue`). -/
def buildDecorationsStep (d : InlaysDecorations) (h : InlayHint) : InlaysDecorations :=
  match h.kind with
  | Kind.TypeHint => { d with type := d.type ++ [h] }
  | Kind.ChainingHint => { d with chaining := d.chaining ++ [h] }
  | Kind.ParameterHint => d

/-- The partitioning loop of `renderHints` (lines 115-127): a fold over the
hint list starting from empty buckets. -/
def buildDecorations (hints : List InlayHint) : InlaysDecorations :=
  hints.foldl buildDecorationsStep ⟨[], [], []⟩

/-- `HintsUpdater.renderHints` (lines 114-144): partition the hints, clear
the namespace of `uri` (the buffer of the `doc` argument), then draw the
chaining bucket (if `chainingHints` is enabled) followed by the type bucket
(if `typeHints` is enabled), each chunk being separator ++ label at the
line of the hint's range end with the kind's highlight group. -/
def renderHints (uri : String) (hints : List InlayHint) (s : SysState) : SysState :=
  let decorations := buildDecorations hints
  let cfg := s.config
  let s1 := clearNamespace uri s
  let s2 :=
    if cfg.chainingHints then
      decorations.chaining.foldl (fun st item =>
        setVirtualText uri item.range.«end».line
          (cfg.chainingHintsSeparator ++ item.label) "CocRustChainingHint" st) s1
    else s1
  if cfg.typeHints then
    decorations.type.foldl (fun st item =>
      setVirtualText uri item.range.«end».line
        (cfg.typeHintsSeparator ++ item.label) "CocRustTypeHint" st) s2
  else s2

/-- The synchronous body of `HintsUpdater.fetchHints` (lines 146-154):
cancel the previous `inlaysRequest` if any, allocate a fresh
`CancellationTokenSource`, record it as the file's `inlaysRequest`, and
issue the backend request (spawn a `FetchTask` carrying the fresh token and
the `current` document captured by the caller).  The completion chain
(`.catch`/`.finally`/`.then`) runs later, in `fetchResolve`.  Looking the
file up by `uri` is faithful to the TypeScript's captured object reference:
the Registry never removes entries and re-registration keeps the existing
object, so the entry at `uri` is stable. -/
def fetchHints (uri : String) (current : Option String) (s : SysState) : SysState :=
  match lookupKV s.sourceFiles uri with
  | none => s
  | some file =>
    let cancelled' :=
      match file.inlaysRequest with
      | some t => t :: s.cancelled
      | none => s.cancelled
    { s with
      sourceFiles := setKV s.sourceFiles uri { file with inlaysRequest := some s.nextToken },
      nextToken := s.nextToken + 1,
      cancelled := cancelled',
      tasks := s.tasks ++ [⟨uri, s.nextToken, current⟩] }

/-- `HintsUpdater.syncAndRenderHints` (lines 100-112): return immediately
when disabled; otherwise capture `current = await workspace.document` and
start one fetch per Registry entry, attaching to each a `.then` handler
that compares against the captured `current` (the comparison itself runs in
`fetchResolve`).  The suspension at the `await` is collapsed: `current` is
the active document at the time this segment runs. -/
def syncAndRenderHints (s : SysState) : SysState :=
  if !s.inlayHintsEnabled then s
  else
    let current := s.activeDoc
    s.sourceFiles.foldl (fun acc p => fetchHints p.1 current acc) s

/-- The `.finally` callback of `fetchHints` (lines 156-160): clear the
file's `inlaysRequest`, but only if it still holds this task's token. -/
def finallyClear (t : FetchTask) (s : SysState) : SysState :=
  match lookupKV s.sourceFiles t.uri with
  | none => s
  | some file =>
    if file.inlaysRequest = some t.token then
      { s with sourceFiles := setKV s.sourceFiles t.uri { file with inlaysRequest := none } }
    else s

/-- `.catch(() => null)` (line 155): any rejection of the backend request
resolves to `null`. -/
def caught (outcome : Except Unit (List InlayHint)) : Option (List InlayHint) :=
  match outcome with
  | Except.error _ => none
  | Except.ok hints => some hints

/-- Completion of one in-flight request `t` with backend outcome `outcome`.
Modelled from the spec: the backend call (`ctx.sendRequestWithRetry`, not
part of the engine file) either resolves with a hint list or rejects
(failure, retry exhaustion, or cancellation); cancellation is cooperative,
so a request whose token was cancelled may still resolve with a late
result.  The completion runs, in order: the `.catch` mapping any rejection
to `null`, the `.finally` identity-gated clearing of `inlaysRequest`, and
the `.then` handler attached in `syncAndRenderHints` (lines 104-110), which
returns early on `null` and otherwise renders onto the pass-captured
`current` document when its uri equals this task's uri and it is a Rust
document.  The chain has no internal suspension, so it is one atomic step. -/
def fetchResolve (t : FetchTask) (outcome : Except Unit (List InlayHint))
    (s : SysState) : SysState :=
  let s1 := finallyClear t { s with tasks := s.tasks.erase t }
  match caught outcome with
  | none => s1
  | some hints =>
    if t.current = some t.uri ∧ s1.isRust t.uri = true then renderHints t.uri hints s1
    else s1

/-- The Registry-insertion prefix of the `onDidOpenTextDocument` handler
(lines 62-66): get the existing `RustSourceFile` for the uri, or build a
fresh one with a null `inlaysRequest`, and `Map.set` it back. -/
def registerDoc (uri : String) (s : SysState) : SysState :=
  let file := (lookupKV s.sourceFiles uri).getD { document := uri, inlaysRequest := none }
  { s with sourceFiles := setKV s.sourceFiles uri file }

/-- The `events.on('InsertLeave')` handler (lines 36-42): for a Rust
document, clear its namespace and start a resync. -/
def onInsertLeave (uri : String) (s : SysState) : SysState :=
  if s.isRust uri then syncAndRenderHints (clearNamespace uri s) else s

/-- The `workspace.onDidChangeTextDocument` handler (lines 44-57): for a
Rust document, clear its namespace; then, unless the editor is in insert
mode with `refreshOnInsertMode` off, start a resync. -/
def onDidChangeTextDocument (uri : String) (s : SysState) : SysState :=
  if s.isRust uri then
    let s1 := clearNamespace uri s
    if s1.insertMode && !s1.config.refreshOnInsertMode then s1
    else syncAndRenderHints s1
  else s

/-- The `workspace.onDidOpenTextDocument` handler (lines 59-75): for a Rust
document, register it (idempotently), clear its namespace, and resync. -/
def onDidOpenTextDocument (uri : String) (s : SysState) : SysState :=
  if s.isRust uri then syncAndRenderHints (clearNamespace uri (registerDoc uri s))
  else s

/-- One iteration of `this.sourceFiles.forEach((file) =>
file.inlaysRequest?.cancel())` (line 81): cancel the entry's pending
request, if any. -/
def cancelPending (acc : List Nat) (p : String × RustSourceFile) : List Nat :=
  match p.2.inlaysRequest with
  | some t => t :: acc
  | none => acc

/-- `HintsUpdater.dispose` (lines 80-83): cancel the `inlaysRequest` of
every Registry entry and dispose the listeners held in `this.disposables`
(the two `workspace.on*` registrations; the InsertLeave listener is not
among them). -/
def dispose (s : SysState) : SysState :=
  { s with cancelled := s.sourceFiles.foldl cancelPending s.cancelled,
           listenersAttached := false }

/-- `HintsUpdater.toggle` (lines 85-98).  Enabled branch: set disabled,
`dispose()` (cancel everything, detach the disposable listeners), then
clear the namespace of the currently active document, if any (the `await
workspace.document` suspension is collapsed).  Disabled branch: set enabled
and resync; nothing reattaches the disposed listeners. -/
def toggle (s : SysState) : SysState :=
  if s.inlayHintsEnabled then
    let s1 := dispose { s with inlayHintsEnabled := false }
    match s1.activeDoc with
    | none => s1
    | some d => clearNamespace d s1
  else
    syncAndRenderHints { s with inlayHintsEnabled := true }

/-- The `HintsUpdater` constructor (lines 27-78) run against an editor
whose open documents are `openDocs` with active document `active`: seed the
Registry with every open Rust document (null `inlaysRequest`), clear each
one's namespace, attach the listeners, and run the initial
`syncAndRenderHints`. -/
def construct (openDocs : List String) (active : Option String) (cfg : Config)
    (rust : String → Bool) (insert : Bool) : SysState :=
  let base : SysState :=
    { sourceFiles := (openDocs.filter rust).map
        (fun u => (u, { document := u, inlaysRequest := none })),
      nextToken := 0,
      cancelled := [],
      inlayHintsEnabled := true,
      listenersAttached := true,
      overlays := fun _ => [],
      tasks := [],
      activeDoc := active,
      insertMode := insert,
      config := cfg,
      isRust := rust }
  syncAndRenderHints base

/-- `onConfigChange` in `activateInlayHints` (lines 167-180), in the case
where an updater exists and at least one hint kind is enabled: it calls
`syncAndRenderHints` directly, with no prior namespace clearing. -/
def onConfigChangeSync (s : SysState) : SysState :=
  syncAndRenderHints s

/-- One step of the cooperative scheduler: an editor event dispatched to a
handler, the user's toggle command, a configuration-change resync, a focus
or insert-mode change on the editor side, or the completion of one
unresolved backend request with a nondeterministic outcome. -/
inductive Step : SysState → SysState → Prop where
  | focus (s : SysState) (d : Option String) : Step s { s with activeDoc := d }
  | insertModeSet (s : SysState) (b : Bool) : Step s { s with insertMode := b }
  | insertLeave (s : SysState) (uri : String) : Step s (onInsertLeave uri s)
  | docChange (s : SysState) (uri : String) (h : s.listenersAttached = true) :
      Step s (onDidChangeTextDocument uri s)
  | docOpen (s : SysState) (uri : String) (h : s.listenersAttached = true) :
      Step s (onDidOpenTextDocument uri s)
  | toggleCmd (s : SysState) : Step s (toggle s)
  | configResync (s : SysState) : Step s (onConfigChangeSync s)
  | resolve (s : SysState) (t : FetchTask) (outcome : Except Unit (List InlayHint))
      (h : t ∈ s.tasks) : Step s (fetchResolve t outcome s)

/-! Association-list facts about the Registry primitives. -/

theorem lookupKV_setKV_self {α : Type} (l : List (String × α)) (k : String) (v : α) :
    lookupKV (setKV l k v) k = some v := by
  induction l with
  | nil => simp [setKV, lookupKV]
  | cons p rest ih =>
    obtain ⟨k', v'⟩ := p
    by_cases h : k' = k
    · simp [setKV, h, lookupKV]
    · simp [setKV, h, lookupKV, ih]

theorem lookupKV_setKV_ne {α : Type} (l : List (String × α)) (k k' : String) (v : α)
    (h : k' ≠ k) : lookupKV (setKV l k v) k' = lookupKV l k' := by
  induction l with
  | nil => simp [setKV, lookupKV, Ne.symm h]
  | cons p rest ih =>
    obtain ⟨k₀, v₀⟩ := p
    by_cases hk : k₀ = k
    · subst hk
      simp [setKV, lookupKV, Ne.symm h]
    · simp [setKV, hk, lookupKV, ih]

theorem setKV_eq_self {α : Type} (l : List (String × α)) (k : String) (v : α)
    (h : lookupKV l k = some v) : setKV l k v = l := by
  induction l with
  | nil => simp [lookupKV] at h
  | cons p rest ih =>
    obtain ⟨k', v'⟩ := p
    by_cases hk : k' = k
    · subst hk
      simp [lookupKV] at h
      simp [setKV, h]
    · simp [lookupKV, hk] at h
      simp [setKV, hk, ih h]

theorem setKV_keys_of_lookup {α : Type} (l : List (String × α)) (k : String) (v w : α)
    (h : lookupKV l k = some w) :
    (setKV l k v).map Prod.fst = l.map Prod.fst := by
  induction l with
  | nil => simp [lookupKV] at h
  | cons p rest ih =>
    obtain ⟨k', v'⟩ := p
    by_cases hk : k' = k
    · subst hk
      simp [setKV]
    · simp [lookupKV, hk] at h
      simp [setKV, hk, ih h]

theorem lookupKV_eq_none_iff {α : Type} (l : List (String × α)) (k : String) :
    lookupKV l k = none ↔ k ∉ l.map Prod.fst := by
  induction l with
  | nil => simp [lookupKV]
  | cons p rest ih =>
    obtain ⟨k', v'⟩ := p
    by_cases hk : k' = k
    · subst hk
      simp [lookupKV]
    · simp [lookupKV, hk, ih, Ne.symm hk]

theorem setKV_keys_of_none {α : Type} (l : List (String × α)) (k : String) (v : α)
    (h : lookupKV l k = none) :
    (setKV l k v).map Prod.fst = l.map Prod.fst ++ [k] := by
  induction l with
  | nil => simp [setKV]
  | cons p rest ih =>
    obtain ⟨k', v'⟩ := p
    by_cases hk : k' = k
    · subst hk
      simp [lookupKV] at h
    · simp [lookupKV, hk] at h
      simp [setKV, hk, ih h]

theorem mem_of_lookupKV {α : Type} (l : List (String × α)) (k : String) (v : α)
    (h : lookupKV l k = some v) : (k, v) ∈ l := by
  induction l with
  | nil => simp [lookupKV] at h
  | cons p rest ih =>
    obtain ⟨k', v'⟩ := p
    by_cases hk : k' = k
    · subst hk
      simp [lookupKV] at h
      simp [h]
    · simp [lookupKV, hk] at h
      exact List.mem_cons_of_mem _ (ih h)

theorem lookupKV_isSome_of_mem_keys {α : Type} (l : List (String × α)) (k : String)
    (h : k ∈ l.map Prod.fst) : (lookupKV l k).isSome := by
  cases hl : lookupKV l k with
  | none => exact absurd ((lookupKV_eq_none_iff l k).mp hl) (by simp [h])
  | some v => rfl

/-! Frame facts: which fields each operation leaves untouched. -/

theorem fetchHints_overlays (uri : String) (cur : Option String) (s : SysState) :
    (fetchHints uri cur s).overlays = s.overlays := by
  cases hl : lookupKV s.sourceFiles uri <;> simp [fetchHints, hl]

theorem fetchHints_inlayHintsEnabled (uri : String) (cur : Option String) (s : SysState) :
    (fetchHints uri cur s).inlayHintsEnabled = s.inlayHintsEnabled := by
  cases hl : lookupKV s.sourceFiles uri <;> simp [fetchHints, hl]

theorem fetchHints_listenersAttached (uri : String) (cur : Option String) (s : SysState) :
    (fetchHints uri cur s).listenersAttached = s.listenersAttached := by
  cases hl : lookupKV s.sourceFiles uri <;> simp [fetchHints, hl]

theorem fetchHints_keys (uri : String) (cur : Option String) (s : SysState) :
    (fetchHints uri cur s).sourceFiles.map Prod.fst = s.sourceFiles.map Prod.fst := by
  cases hl : lookupKV s.sourceFiles uri with
  | none => simp [fetchHints, hl]
  | some f => simp [fetchHints, hl, setKV_keys_of_lookup _ _ _ _ hl]

/-- A generic frame lemma for the fold inside `syncAndRenderHints`: any
projection preserved by `fetchHints` is preserved by the whole pass. -/
theorem foldl_fetchHints_proj {γ : Type} (proj : SysState → γ)
    (h : ∀ (st : SysState) (uri : String) (cur : Option String), proj (fetchHints uri cur st) = proj st)
    (l : List (String × RustSourceFile)) (cur : Option String) (st : SysState) :
    proj (l.foldl (fun acc p => fetchHints p.1 cur acc) st) = proj st := by
  induction l generalizing st with
  | nil => rfl
  | cons p rest ih => exact (ih (fetchHints p.1 cur st)).trans (h st p.1 cur)

theorem syncAndRenderHints_overlays (s : SysState) :
    (syncAndRenderHints s).overlays = s.overlays := by
  unfold syncAndRenderHints
  by_cases h : s.inlayHintsEnabled
  · simp [h, foldl_fetchHints_proj (fun st => st.overlays) (fun st uri cur => fetchHints_overlays uri cur st)]
  · simp [h]

theorem syncAndRenderHints_inlayHintsEnabled (s : SysState) :
    (syncAndRenderHints s).inlayHintsEnabled = s.inlayHintsEnabled := by
  unfold syncAndRenderHints
  by_cases h : s.inlayHintsEnabled
  · simp [h, foldl_fetchHints_proj (fun st => st.inlayHintsEnabled)
      (fun st uri cur => fetchHints_inlayHintsEnabled uri cur st)]
  · simp [h]

theorem syncAndRenderHints_listenersAttached (s : SysState) :
    (syncAndRenderHints s).listenersAttached = s.listenersAttached := by
  unfold syncAndRenderHints
  by_cases h : s.inlayHintsEnabled
  · simp [h, foldl_fetchHints_proj (fun st => st.listenersAttached)
      (fun st uri cur => fetchHints_listenersAttached uri cur st)]
  · simp [h]

/-! The render engine: closed forms for the drawing loops. -/

/-- Whether a hint is a chaining hint (the `case ChainingHint` branch of
the partitioning switch). -/
def isChaining (h : InlayHint) : Bool :=
  match h.kind with
  | Kind.ChainingHint => true
  | _ => false

/-- Whether a hint is a type hint (the `case TypeHint` branch of the
partitioning switch). -/
def isType (h : InlayHint) : Bool :=
  match h.kind with
  | Kind.TypeHint => true
  | _ => false

/-- The overlay drawn for one chaining hint: separator ++ label at the line
of the hint's range end, with the chaining highlight group. -/
def chainingChunk (cfg : Config) (h : InlayHint) : Overlay :=
  ⟨h.range.«end».line, cfg.chainingHintsSeparator ++ h.label, "CocRustChainingHint"⟩

/-- The overlay drawn for one type hint: separator ++ label at the line of
the hint's range end, with the type highlight group. -/
def typeChunk (cfg : Config) (h : InlayHint) : Overlay :=
  ⟨h.range.«end».line, cfg.typeHintsSeparator ++ h.label, "CocRustTypeHint"⟩

/-- The full overlay list `renderHints` leaves in the namespace of the
rendered document: the chaining bucket (if enabled) followed by the type
bucket (if enabled); parameter hints are never drawn. -/
def hintChunks (cfg : Config) (hints : List InlayHint) : List Overlay :=
  (if cfg.chainingHints then (hints.filter isChaining).map (chainingChunk cfg) else [])
    ++ (if cfg.typeHints then (hints.filter isType).map (typeChunk cfg) else [])

theorem foldl_buildDecorationsStep_chaining (l : List InlayHint) (d : InlaysDecorations) :
    (l.foldl buildDecorationsStep d).chaining = d.chaining ++ l.filter isChaining := by
  induction l generalizing d with
  | nil => simp
  | cons a rest ih =>
    rw [List.foldl_cons, ih]
    cases hk : a.kind <;> simp [buildDecorationsStep, hk, isChaining, List.filter_cons]

theorem foldl_buildDecorationsStep_type (l : List InlayHint) (d : InlaysDecorations) :
    (l.foldl buildDecorationsStep d).type = d.type ++ l.filter isType := by
  induction l generalizing d with
  | nil => simp
  | cons a rest ih =>
    rw [List.foldl_cons, ih]
    cases hk : a.kind <;> simp [buildDecorationsStep, hk, isType, List.filter_cons]

theorem buildDecorations_chaining (l : List InlayHint) :
    (buildDecorations l).chaining = l.filter isChaining := by
  simpa using foldl_buildDecorationsStep_chaining l ⟨[], [], []⟩

theorem buildDecorations_type (l : List InlayHint) :
    (buildDecorations l).type = l.filter isType := by
  simpa using foldl_buildDecorationsStep_type l ⟨[], [], []⟩

/-- A generic frame lemma for folds over the state. -/
theorem foldl_proj {β γ : Type} (f : SysState → β → SysState) (proj : SysState → γ)
    (h : ∀ (st : SysState) (b : β), proj (f st b) = proj st) (l : List β) (st : SysState) :
    proj (l.foldl f st) = proj st := by
  induction l generalizing st with
  | nil => rfl
  | cons b rest ih => exact (ih (f st b)).trans (h st b)

/-- The overlays left by one drawing loop of `renderHints`: it appends, to
the namespace of the rendered document only, one chunk per hint in its
bucket, in bucket order. -/
theorem drawFold_overlays (uri sep g : String) (l : List InlayHint) (st : SysState) (u : String) :
    ((l.foldl (fun st item =>
        setVirtualText uri item.range.«end».line (sep ++ item.label) g st) st).overlays u)
      = if u = uri then
          st.overlays u ++ l.map (fun item => ⟨item.range.«end».line, sep ++ item.label, g⟩)
        else st.overlays u := by
  induction l generalizing st with
  | nil => by_cases h : u = uri <;> simp [h]
  | cons a rest ih =>
    rw [List.foldl_cons, ih]
    by_cases h : u = uri <;> simp [setVirtualText, h]

theorem renderHints_proj {γ : Type} (proj : SysState → γ)
    (hclear : ∀ (st : SysState) (uri : String), proj (clearNamespace uri st) = proj st)
    (hset : ∀ (st : SysState) (uri : String) (line : Nat) (text g : String),
      proj (setVirtualText uri line text g st) = proj st)
    (uri : String) (hints : List InlayHint) (s : SysState) :
    proj (renderHints uri hints s) = proj s := by
  have hfold : ∀ (g sep : String) (l : List InlayHint) (st : SysState),
      proj (l.foldl (fun st item =>
        setVirtualText uri item.range.«end».line (sep ++ item.label) g st) st) = proj st :=
    fun g sep l st => foldl_proj _ proj (fun st b => hset st uri _ _ g) l st
  unfold renderHints
  by_cases hc : s.config.chainingHints <;> by_cases ht : s.config.typeHints <;>
    simp [hc, ht, hfold, hclear]

theorem renderHints_sourceFiles (uri : String) (hints : List InlayHint) (s : SysState) :
    (renderHints uri hints s).sourceFiles = s.sourceFiles :=
  renderHints_proj (fun st => st.sourceFiles) (fun _ _ => rfl) (fun _ _ _ _ _ => rfl) uri hints s

theorem renderHints_tasks (uri : String) (hints : List InlayHint) (s : SysState) :
    (renderHints uri hints s).tasks = s.tasks :=
  renderHints_proj (fun st => st.tasks) (fun _ _ => rfl) (fun _ _ _ _ _ => rfl) uri hints s

theorem renderHints_nextToken (uri : String) (hints : List InlayHint) (s : SysState) :
    (renderHints uri hints s).nextToken = s.nextToken :=
  renderHints_proj (fun st => st.nextToken) (fun _ _ => rfl) (fun _ _ _ _ _ => rfl) uri hints s

theorem renderHints_cancelled (uri : String) (hints : List InlayHint) (s : SysState) :
    (renderHints uri hints s).cancelled = s.cancelled :=
  renderHints_proj (fun st => st.cancelled) (fun _ _ => rfl) (fun _ _ _ _ _ => rfl) uri hints s

/-- What `renderHints` paints on the rendered document: the namespace is
cleared and then holds exactly the enabled buckets' chunks. -/
theorem renderHints_overlays_self (uri : String) (hints : List InlayHint) (s : SysState) :
    (renderHints uri hints s).overlays uri = hintChunks s.config hints := by
  unfold renderHints hintChunks
  by_cases hc : s.config.chainingHints <;> by_cases ht : s.config.typeHints <;>
    (simp [hc, ht, drawFold_overlays, clearNamespace, buildDecorations_chaining,
      buildDecorations_type, chainingChunk, typeChunk]) <;> rfl

/-- `renderHints` paints only the rendered document's namespace. -/
theorem renderHints_overlays_ne (uri : String) (hints : List InlayHint) (s : SysState)
    (u : String) (h : u ≠ uri) :
    (renderHints uri hints s).overlays u = s.overlays u := by
  unfold renderHints
  by_cases hc : s.config.chainingHints <;> by_cases ht : s.config.typeHints <;>
    simp [hc, ht, drawFold_overlays, clearNamespace, h]

/-! Completion-chain facts: the identity-gated `.finally` and the `.then`
render guard. -/

theorem finallyClear_proj {γ : Type} (proj : SysState → γ)
    (h : ∀ (st : SysState) (l : List (String × RustSourceFile)),
      proj { st with sourceFiles := l } = proj st)
    (t : FetchTask) (s : SysState) : proj (finallyClear t s) = proj s := by
  unfold finallyClear
  cases hl : lookupKV s.sourceFiles t.uri with
  | none => rfl
  | some f =>
    by_cases hf : f.inlaysRequest = some t.token <;> simp [hf, h]

/-- The identity check of the `.finally` callback: a completion whose token
is no longer the recorded `inlaysRequest` does not touch the state. -/
theorem finallyClear_skip (t : FetchTask) (s : SysState) (f : RustSourceFile)
    (hl : lookupKV s.sourceFiles t.uri = some f) (hne : f.inlaysRequest ≠ some t.token) :
    finallyClear t s = s := by
  unfold finallyClear
  simp [hl, hne]

theorem fetchResolve_error_eq (t : FetchTask) (e : Unit) (s : SysState) :
    fetchResolve t (Except.error e) s = finallyClear t { s with tasks := s.tasks.erase t } :=
  rfl

theorem fetchResolve_overlays_error (t : FetchTask) (e : Unit) (s : SysState) (u : String) :
    (fetchResolve t (Except.error e) s).overlays u = s.overlays u := by
  rw [fetchResolve_error_eq]
  exact congrFun (finallyClear_proj (fun st => st.overlays) (fun _ _ => rfl) t _) u

/-- A completion whose pass-captured current document is not its own
document performs no painting at all. -/
theorem fetchResolve_overlays_other (t : FetchTask) (outcome : Except Unit (List InlayHint))
    (s : SysState) (h : t.current ≠ some t.uri) (u : String) :
    (fetchResolve t outcome s).overlays u = s.overlays u := by
  unfold fetchResolve
  have hfin := congrFun (finallyClear_proj (fun st => st.overlays) (fun _ _ => rfl) t
    { s with tasks := s.tasks.erase t }) u
  cases outcome with
  | error e => exact hfin
  | ok hints =>
    simp only [caught]
    rw [if_neg]
    · exact hfin
    · rintro ⟨h1, _⟩
      exact h h1

/-- A completion for the pass-captured current document with a non-null
result repaints that document's namespace with exactly the enabled
buckets' chunks. -/
theorem fetchResolve_overlays_render (t : FetchTask) (hints : List InlayHint) (s : SysState)
    (hcur : t.current = some t.uri) (hrust : s.isRust t.uri = true) :
    (fetchResolve t (Except.ok hints) s).overlays t.uri = hintChunks s.config hints := by
  unfold fetchResolve
  have hrust' : (finallyClear t { s with tasks := s.tasks.erase t }).isRust = s.isRust :=
    finallyClear_proj (fun st => st.isRust) (fun _ _ => rfl) t _
  have hcfg : (finallyClear t { s with tasks := s.tasks.erase t }).config = s.config :=
    finallyClear_proj (fun st => st.config) (fun _ _ => rfl) t _
  simp only [caught]
  rw [if_pos ⟨hcur, by rw [hrust']; exact hrust⟩, renderHints_overlays_self, hcfg]

/-- A completion never touches the Registry entry of its document when the
recorded token differs from its own: the newer request's `inlaysRequest`
marker survives, whatever the outcome. -/
theorem fetchResolve_keeps_newer (t : FetchTask) (outcome : Except Unit (List InlayHint))
    (s : SysState) (f : RustSourceFile) (tB : Nat)
    (hl : lookupKV s.sourceFiles t.uri = some f)
    (hB : f.inlaysRequest = some tB) (hne : tB ≠ t.token) :
    lookupKV (fetchResolve t outcome s).sourceFiles t.uri = some f := by
  have hne' : f.inlaysRequest ≠ some t.token := by
    rw [hB]
    intro hcontra
    exact hne (Option.some.inj hcontra)
  have hskip : finallyClear t { s with tasks := s.tasks.erase t }
      = { s with tasks := s.tasks.erase t } :=
    finallyClear_skip t _ f hl hne'
  unfold fetchResolve
  cases outcome with
  | error e => rw [hskip]; exact hl
  | ok hints =>
    simp only [caught, hskip]
    by_cases hgate : t.current = some t.uri ∧ ({ s with tasks := s.tasks.erase t } : SysState).isRust t.uri = true
    · rw [if_pos hgate, renderHints_sourceFiles]
      exact hl
    · rw [if_neg hgate]
      exact hl

/-! Token bookkeeping: every in-flight request carries a token below the
allocation counter, and no two in-flight requests share a token. -/

/-- Token discipline over the task pool: every unresolved request's token
is below the fresh-token counter, and tokens of unresolved requests are
pairwise distinct. -/
def TokenInv (s : SysState) : Prop :=
  (∀ t ∈ s.tasks, t.token < s.nextToken) ∧ (s.tasks.map FetchTask.token).Nodup

theorem tokenInv_of_fields {s' s : SysState} (ht : s'.tasks = s.tasks)
    (hn : s'.nextToken = s.nextToken) (h : TokenInv s) : TokenInv s' := by
  unfold TokenInv
  rw [ht, hn]
  exact h

theorem fetchHints_tasks_some (uri : String) (cur : Option String) (s : SysState)
    (f : RustSourceFile) (hf : lookupKV s.sourceFiles uri = some f) :
    (fetchHints uri cur s).tasks = s.tasks ++ [⟨uri, s.nextToken, cur⟩] := by
  simp [fetchHints, hf]

theorem fetchHints_eq_of_none (uri : String) (cur : Option String) (s : SysState)
    (hf : lookupKV s.sourceFiles uri = none) : fetchHints uri cur s = s := by
  simp [fetchHints, hf]

theorem fetchHints_nextToken_some (uri : String) (cur : Option String) (s : SysState)
    (f : RustSourceFile) (hf : lookupKV s.sourceFiles uri = some f) :
    (fetchHints uri cur s).nextToken = s.nextToken + 1 := by
  simp [fetchHints, hf]

theorem tokenInv_fetchHints (uri : String) (cur : Option String) (s : SysState)
    (h : TokenInv s) : TokenInv (fetchHints uri cur s) := by
  cases hl : lookupKV s.sourceFiles uri with
  | none => rw [fetchHints_eq_of_none uri cur s hl]; exact h
  | some f =>
    obtain ⟨hb, hn⟩ := h
    constructor
    · intro t ht
      rw [fetchHints_tasks_some uri cur s f hl] at ht
      rw [fetchHints_nextToken_some uri cur s f hl]
      rcases List.mem_append.mp ht with h1 | h2
      · exact Nat.lt_trans (hb t h1) (Nat.lt_succ_self _)
      · rw [List.mem_singleton.mp h2]
        exact Nat.lt_succ_self _
    · rw [fetchHints_tasks_some uri cur s f hl]
      simp only [List.map_append, List.map_cons, List.map_nil]
      rw [List.nodup_append]
      refine ⟨hn, List.nodup_singleton _, ?_⟩
      intro a ha ha'
      simp only [List.mem_singleton] at ha'
      subst ha'
      obtain ⟨t, ht, htok⟩ := List.mem_map.mp ha
      exact Nat.lt_irrefl _ (htok ▸ hb t ht)

theorem tokenInv_syncFold (l : List (String × RustSourceFile)) (cur : Option String)
    (st : SysState) (h : TokenInv st) :
    TokenInv (l.foldl (fun acc p => fetchHints p.1 cur acc) st) := by
  induction l generalizing st with
  | nil => exact h
  | cons p rest ih => exact ih _ (tokenInv_fetchHints p.1 cur st h)

theorem tokenInv_syncAndRenderHints (s : SysState) (h : TokenInv s) :
    TokenInv (syncAndRenderHints s) := by
  unfold syncAndRenderHints
  by_cases he : s.inlayHintsEnabled
  · simp only [he, Bool.not_true, Bool.false_eq_true, if_false]
    exact tokenInv_syncFold s.sourceFiles s.activeDoc s h
  · simp only [Bool.not_eq_true] at he
    simp [he]
    exact h

theorem tokenInv_clearNamespace (uri : String) (s : SysState) (h : TokenInv s) :
    TokenInv (clearNamespace uri s) :=
  tokenInv_of_fields rfl rfl h

theorem tokenInv_registerDoc (uri : String) (s : SysState) (h : TokenInv s) :
    TokenInv (registerDoc uri s) :=
  tokenInv_of_fields rfl rfl h

theorem tokenInv_dispose (s : SysState) (h : TokenInv s) : TokenInv (dispose s) :=
  tokenInv_of_fields rfl rfl h

theorem tokenInv_erase (t : FetchTask) (s : SysState) (h : TokenInv s) :
    TokenInv { s with tasks := s.tasks.erase t } := by
  obtain ⟨hb, hn⟩ := h
  constructor
  · intro t' ht'
    exact hb t' (List.mem_of_mem_erase ht')
  · exact List.Nodup.sublist (List.Sublist.map FetchTask.token (List.erase_sublist t s.tasks)) hn

theorem tokenInv_finallyClear (t : FetchTask) (s : SysState) (h : TokenInv s) :
    TokenInv (finallyClear t s) :=
  tokenInv_of_fields (finallyClear_proj (fun st => st.tasks) (fun _ _ => rfl) t s)
    (finallyClear_proj (fun st => st.nextToken) (fun _ _ => rfl) t s) h

theorem tokenInv_renderHints (uri : String) (hints : List InlayHint) (s : SysState)
    (h : TokenInv s) : TokenInv (renderHints uri hints s) :=
  tokenInv_of_fields (renderHints_tasks uri hints s) (renderHints_nextToken uri hints s) h

theorem tokenInv_fetchResolve (t : FetchTask) (outcome : Except Unit (List InlayHint))
    (s : SysState) (h : TokenInv s) : TokenInv (fetchResolve t outcome s) := by
  unfold fetchResolve
  have h1 : TokenInv (finallyClear t { s with tasks := s.tasks.erase t }) :=
    tokenInv_finallyClear t _ (tokenInv_erase t s h)
  cases outcome with
  | error e => exact h1
  | ok hints =>
    simp only [caught]
    by_cases hgate : t.current = some t.uri ∧
        (finallyClear t { s with tasks := s.tasks.erase t }).isRust t.uri = true
    · rw [if_pos hgate]
      exact tokenInv_renderHints _ _ _ h1
    · rw [if_neg hgate]
      exact h1

theorem tokenInv_onInsertLeave (uri : String) (s : SysState) (h : TokenInv s) :
    TokenInv (onInsertLeave uri s) := by
  unfold onInsertLeave
  split
  · exact tokenInv_syncAndRenderHints _ (tokenInv_clearNamespace _ _ h)
  · exact h

theorem tokenInv_onDidChangeTextDocument (uri : String) (s : SysState) (h : TokenInv s) :
    TokenInv (onDidChangeTextDocument uri s) := by
  unfold onDidChangeTextDocument
  split
  · dsimp only
    split
    · exact tokenInv_clearNamespace _ _ h
    · exact tokenInv_syncAndRenderHints _ (tokenInv_clearNamespace _ _ h)
  · exact h

theorem tokenInv_onDidOpenTextDocument (uri : String) (s : SysState) (h : TokenInv s) :
    TokenInv (onDidOpenTextDocument uri s) := by
  unfold onDidOpenTextDocument
  split
  · exact tokenInv_syncAndRenderHints _
      (tokenInv_clearNamespace _ _ (tokenInv_registerDoc _ _ h))
  · exact h

theorem tokenInv_toggle (s : SysState) (h : TokenInv s) : TokenInv (toggle s) := by
  unfold toggle
  have h1 : TokenInv (dispose { s with inlayHintsEnabled := false }) :=
    tokenInv_dispose _ (tokenInv_of_fields rfl rfl h)
  split
  · dsimp only
    split
    · exact h1
    · exact tokenInv_clearNamespace _ _ h1
  · exact tokenInv_syncAndRenderHints _ (tokenInv_of_fields rfl rfl h)

/-- The token discipline is preserved by every step of the system. -/
theorem tokenInv_step (s s' : SysState) (h : Step s s') (hinv : TokenInv s) : TokenInv s' := by
  cases h with
  | focus d => exact tokenInv_of_fields rfl rfl hinv
  | insertModeSet b => exact tokenInv_of_fields rfl rfl hinv
  | insertLeave uri => exact tokenInv_onInsertLeave uri s hinv
  | docChange uri hatt => exact tokenInv_onDidChangeTextDocument uri s hinv
  | docOpen uri hatt => exact tokenInv_onDidOpenTextDocument uri s hinv
  | toggleCmd => exact tokenInv_toggle s hinv
  | configResync => exact tokenInv_syncAndRenderHints s hinv
  | resolve t outcome hmem => exact tokenInv_fetchResolve t outcome s hinv

/-! Resync-pass facts: a full pass issues one fetch per Registry entry,
every fetch carrying the pass-captured current document. -/

theorem mem_keys_of_mem {α : Type} (l : List (String × α)) (p : String × α) (h : p ∈ l) :
    p.1 ∈ l.map Prod.fst :=
  List.mem_map_of_mem Prod.fst h

theorem syncFold_tasks_uris (l : List (String × RustSourceFile)) (cur : Option String)
    (st : SysState) (h : ∀ p ∈ l, p.1 ∈ st.sourceFiles.map Prod.fst) :
    (l.foldl (fun acc p => fetchHints p.1 cur acc) st).tasks.map FetchTask.uri
      = st.tasks.map FetchTask.uri ++ l.map Prod.fst := by
  induction l generalizing st with
  | nil => simp
  | cons p rest ih =>
    rw [List.foldl_cons]
    have hp : p.1 ∈ st.sourceFiles.map Prod.fst := h p (List.mem_cons_self p rest)
    obtain ⟨f, hf⟩ : ∃ f, lookupKV st.sourceFiles p.1 = some f := by
      cases hl : lookupKV st.sourceFiles p.1 with
      | none => exact absurd ((lookupKV_eq_none_iff _ _).mp hl) (by simp [hp])
      | some f => exact ⟨f, rfl⟩
    have hrest : ∀ q ∈ rest, q.1 ∈ (fetchHints p.1 cur st).sourceFiles.map Prod.fst := by
      intro q hq
      rw [fetchHints_keys]
      exact h q (List.mem_cons_of_mem p hq)
    rw [ih (fetchHints p.1 cur st) hrest, fetchHints_tasks_some p.1 cur st f hf]
    simp

theorem fetchHints_tasks_mem (uri : String) (cur : Option String) (st : SysState)
    (t : FetchTask) (h : t ∈ (fetchHints uri cur st).tasks) :
    t ∈ st.tasks ∨ t.current = cur := by
  cases hl : lookupKV st.sourceFiles uri with
  | none => rw [fetchHints_eq_of_none uri cur st hl] at h; exact Or.inl h
  | some f =>
    rw [fetchHints_tasks_some uri cur st f hl] at h
    rcases List.mem_append.mp h with h1 | h2
    · exact Or.inl h1
    · rw [List.mem_singleton.mp h2]
      exact Or.inr rfl

theorem syncFold_tasks_current (l : List (String × RustSourceFile)) (cur : Option String)
    (st : SysState) (t : FetchTask)
    (h : t ∈ (l.foldl (fun acc p => fetchHints p.1 cur acc) st).tasks) :
    t ∈ st.tasks ∨ t.current = cur := by
  induction l generalizing st with
  | nil => exact Or.inl h
  | cons p rest ih =>
    rw [List.foldl_cons] at h
    rcases ih (fetchHints p.1 cur st) h with h1 | h2
    · exact fetchHints_tasks_mem p.1 cur st t h1
    · exact Or.inr h2

/-! Disposal facts: every recorded pending token is cancelled. -/

theorem cancelPending_mono (l : List (String × RustSourceFile)) (acc : List Nat) (tk : Nat)
    (h : tk ∈ acc) : tk ∈ l.foldl cancelPending acc := by
  induction l generalizing acc with
  | nil => exact h
  | cons p rest ih =>
    refine ih (cancelPending acc p) ?_
    unfold cancelPending
    cases p.2.inlaysRequest with
    | none => exact h
    | some t => exact List.mem_cons_of_mem t h

theorem cancelPending_mem (l : List (String × RustSourceFile)) (acc : List Nat)
    (k : String) (f : RustSourceFile) (tk : Nat)
    (hmem : (k, f) ∈ l) (hreq : f.inlaysRequest = some tk) :
    tk ∈ l.foldl cancelPending acc := by
  induction l generalizing acc with
  | nil => simp at hmem
  | cons p rest ih =>
    rcases List.mem_cons.mp hmem with h1 | h2
    · refine cancelPending_mono rest (cancelPending acc p) tk ?_
      rw [← h1]
      simp [cancelPending, hreq]
    · exact ih (cancelPending acc p) h2

theorem dispose_cancelled_mem (s : SysState) (k : String) (f : RustSourceFile) (tk : Nat)
    (hl : lookupKV s.sourceFiles k = some f) (hreq : f.inlaysRequest = some tk) :
    tk ∈ (dispose s).cancelled :=
  cancelPending_mem s.sourceFiles s.cancelled k f tk (mem_of_lookupKV _ _ _ hl) hreq

/-! Concrete fixtures used to instantiate the theorems: the configuration
and the two hints of the spec's render scenarios. -/

/-- Both kinds enabled, separators as in the spec's scenarios, no refresh
while typing. -/
def cfg0 : Config :=
  { chainingHints := true, typeHints := true,
    chainingHintsSeparator := " » ", typeHintsSeparator := ": ",
    refreshOnInsertMode := false }

/-- The type hint of the spec scenario: label ": i32", range ending on
line 3. -/
def hintT : InlayHint :=
  { kind := Kind.TypeHint, label := ": i32", range := ⟨⟨3, 0⟩, ⟨3, 5⟩⟩ }

/-- The chaining hint of the spec scenario: label "-> i32", range ending on
line 5. -/
def hintC : InlayHint :=
  { kind := Kind.ChainingHint, label := "-> i32", range := ⟨⟨5, 0⟩, ⟨5, 7⟩⟩ }

/-- Claim C7: for every fetch of a document's hints, any failure of the
backend call (including cancellation, which surfaces as a rejection) makes
the fetch resolve to `null` rather than raising or propagating an error:
the `.catch` maps every rejection to `null`; the completion of a rejected
fetch paints nothing (no overlay changes anywhere), removes the task, and
performs only the identity-gated `.finally` clearing.  In this embedding
every completion is a total function, so no error can propagate to the
caller. -/
theorem C7 (t : FetchTask) (e : Unit) (s : SysState) :
    caught (Except.error e) = none
    ∧ fetchResolve t (Except.error e) s = finallyClear t { s with tasks := s.tasks.erase t }
    ∧ (∀ u : String, (fetchResolve t (Except.error e) s).overlays u = s.overlays u)
    ∧ (fetchResolve t (Except.error e) s).tasks = s.tasks.erase t := by
  refine ⟨rfl, rfl, fetchResolve_overlays_error t e s, ?_⟩
  rw [fetchResolve_error_eq]
  exact finallyClear_proj (fun st => st.tasks) (fun _ _ => rfl) t _

/-- The state of the spec's render scenario 1: one open Rust document "a",
focused, both hint kinds enabled. -/
def c8sBoth : SysState := construct ["a"] (some "a") cfg0 (fun _ => true) false

/-- The state of the spec's render scenario 2: same, but `typeHints`
disabled. -/
def c8sNoType : SysState :=
  construct ["a"] (some "a") { cfg0 with typeHints := false } (fun _ => true) false

/-- Claim C8: rendering partitions the hint list by kind and, for each
configuration-enabled kind, draws one overlay per hint of that kind with
text separator ++ label, anchored at the line of the hint's range end, with
the kind-specific highlight group; a disabled kind contributes zero
overlays.  Concretely (spec scenarios 1 and 2, with hints `hintT` at line 3
and `hintC` at line 5 and separators ": " and " » "): with both kinds
enabled, the chaining overlay " » -> i32" at line 5 and the type-group
overlay at line 3; with `typeHints` off, only the chaining overlay. -/
theorem C8 :
    (∀ (cfg : Config) (hints : List InlayHint) (s : SysState) (uri : String),
      (renderHints uri hints { s with config := cfg }).overlays uri
        = (if cfg.chainingHints then (hints.filter isChaining).map (chainingChunk cfg) else [])
          ++ (if cfg.typeHints then (hints.filter isType).map (typeChunk cfg) else []))
    ∧ (renderHints "a" [hintT, hintC] c8sBoth).overlays "a"
        = [⟨5, " » -> i32", "CocRustChainingHint"⟩, ⟨3, ": : i32", "CocRustTypeHint"⟩]
    ∧ (renderHints "a" [hintT, hintC] c8sNoType).overlays "a"
        = [⟨5, " » -> i32", "CocRustChainingHint"⟩] := by
  refine ⟨?_, by decide, by decide⟩
  intro cfg hints s uri
  exact renderHints_overlays_self uri hints { s with config := cfg }

/-- Claim C9: registering a document is idempotent.  Registering an
already-tracked document identity is a no-op on the whole state (the
existing `RustSourceFile`, with its `inlaysRequest`, is the one written
back under the same key), and registration always preserves uniqueness of
the Registry keys. -/
theorem C9 (s : SysState) (uri : String) (f : RustSourceFile)
    (h : lookupKV s.sourceFiles uri = some f) :
    registerDoc uri s = s
    ∧ lookupKV (registerDoc uri s).sourceFiles uri = some f
    ∧ (∀ (s' : SysState) (u : String), (s'.sourceFiles.map Prod.fst).Nodup →
        ((registerDoc u s').sourceFiles.map Prod.fst).Nodup) := by
  have heq : registerDoc uri s = s := by
    unfold registerDoc
    rw [h]
    simp only [Option.getD_some]
    rw [setKV_eq_self _ _ _ h]
  refine ⟨heq, by rw [heq]; exact h, ?_⟩
  intro s' u hn
  unfold registerDoc
  cases hl : lookupKV s'.sourceFiles u with
  | some w =>
    simp only [Option.getD_some]
    rw [setKV_keys_of_lookup _ _ _ _ hl]
    exact hn
  | none =>
    simp only [Option.getD_none]
    rw [setKV_keys_of_none _ _ _ hl]
    rw [List.nodup_append]
    refine ⟨hn, List.nodup_singleton _, ?_⟩
    intro a ha ha'
    simp only [List.mem_singleton] at ha'
    subst ha'
    exact (lookupKV_eq_none_iff _ _).mp hl ha

/-- A state in which "a" is tracked with a pending request: the engine
right after construction over one open Rust document "a". -/
def c9s : SysState := construct ["a"] (some "a") cfg0 (fun _ => true) false

/-- Witness for C9 at the concrete state `c9s`: "a" is tracked (with
pending token 0), and registering it again changes nothing. -/
theorem C9_witness :
    lookupKV c9s.sourceFiles "a" = some ⟨some 0, "a"⟩
    ∧ (registerDoc "a" c9s = c9s
      ∧ lookupKV (registerDoc "a" c9s).sourceFiles "a" = some ⟨some 0, "a"⟩
      ∧ (∀ (s' : SysState) (u : String), (s'.sourceFiles.map Prod.fst).Nodup →
          ((registerDoc u s').sourceFiles.map Prod.fst).Nodup)) :=
  ⟨by decide, C9 c9s "a" ⟨some 0, "a"⟩ (by decide)⟩

/-- A state in insert mode with `refreshOnInsertMode` off: the engine built
over one open Rust document "a" while the user is typing. -/
def c10s : SysState := construct ["a"] (some "a") cfg0 (fun _ => true) true

/-- Claim C10: a document change in insert mode with `refreshOnInsertMode`
off still clears the document's overlay namespace, but triggers no resync
and no fetch and leaves every other part of the state (Registry with its
`pendingRequest`s, token counter, cancellations, task pool) unchanged: the
handler is exactly `clearNamespace`. -/
theorem C10 (s : SysState) (uri : String)
    (hrust : s.isRust uri = true) (hins : s.insertMode = true)
    (hcfg : s.config.refreshOnInsertMode = false) :
    onDidChangeTextDocument uri s = clearNamespace uri s
    ∧ (clearNamespace uri s).overlays uri = []
    ∧ (∀ u : String, u ≠ uri → (clearNamespace uri s).overlays u = s.overlays u)
    ∧ (clearNamespace uri s).sourceFiles = s.sourceFiles
    ∧ (clearNamespace uri s).tasks = s.tasks
    ∧ (clearNamespace uri s).nextToken = s.nextToken
    ∧ (clearNamespace uri s).cancelled = s.cancelled
    ∧ (clearNamespace uri s).inlayHintsEnabled = s.inlayHintsEnabled := by
  refine ⟨?_, by simp [clearNamespace], ?_, rfl, rfl, rfl, rfl, rfl⟩
  · unfold onDidChangeTextDocument
    rw [if_pos hrust]
    dsimp only
    rw [if_pos]
    show (s.insertMode && !s.config.refreshOnInsertMode) = true
    rw [hins, hcfg]
    rfl
  · intro u hu
    simp [clearNamespace, hu]

/-- Witness for C10 at the concrete state `c10s` (insert mode on,
`refreshOnInsertMode` off) and document "a". -/
theorem C10_witness :
    c10s.isRust "a" = true ∧ c10s.insertMode = true
    ∧ c10s.config.refreshOnInsertMode = false
    ∧ (onDidChangeTextDocument "a" c10s = clearNamespace "a" c10s
      ∧ (clearNamespace "a" c10s).overlays "a" = []
      ∧ (∀ u : String, u ≠ "a" → (clearNamespace "a" c10s).overlays u = c10s.overlays u)
      ∧ (clearNamespace "a" c10s).sourceFiles = c10s.sourceFiles
      ∧ (clearNamespace "a" c10s).tasks = c10s.tasks
      ∧ (clearNamespace "a" c10s).nextToken = c10s.nextToken
      ∧ (clearNamespace "a" c10s).cancelled = c10s.cancelled
      ∧ (clearNamespace "a" c10s).inlayHintsEnabled = c10s.inlayHintsEnabled) :=
  ⟨rfl, rfl, rfl, C10 c10s "a" rfl rfl rfl⟩

/-- Claim C3: at most one non-null `pendingRequest` is recorded per tracked
document at any instant (structurally, `inlaysRequest` is one nullable
field, and under the token discipline at most one unresolved fetch task
carries the recorded token), and every new fetch first cancels any
existing pending request and replaces it with a fresh token before issuing
the backend call: after `fetchHints`, the old token (if any) is cancelled,
the entry records the fresh token `s.nextToken`, the issued request carries
exactly that token, and the fresh token differs from every in-flight
request's token.  The token discipline `TokenInv` holds after the fetch and
is preserved by every step of the system. -/
theorem C3 (s : SysState) (uri : String) (cur : Option String) (f : RustSourceFile)
    (hf : lookupKV s.sourceFiles uri = some f)
    (hinv : TokenInv s) :
    (∀ tk : Nat, f.inlaysRequest = some tk → tk ∈ (fetchHints uri cur s).cancelled)
    ∧ lookupKV (fetchHints uri cur s).sourceFiles uri
        = some { f with inlaysRequest := some s.nextToken }
    ∧ (fetchHints uri cur s).tasks = s.tasks ++ [⟨uri, s.nextToken, cur⟩]
    ∧ (∀ t ∈ s.tasks, t.token ≠ s.nextToken)
    ∧ TokenInv (fetchHints uri cur s)
    ∧ (∀ s₁ s₂ : SysState, Step s₁ s₂ → TokenInv s₁ → TokenInv s₂)
    ∧ (∀ s₀ : SysState, TokenInv s₀ → ∀ (u : String) (g : RustSourceFile),
        lookupKV s₀.sourceFiles u = some g →
        ∀ t₁ ∈ s₀.tasks, ∀ t₂ ∈ s₀.tasks,
          some t₁.token = g.inlaysRequest → some t₂.token = g.inlaysRequest → t₁ = t₂) := by
  refine ⟨?_, ?_, fetchHints_tasks_some uri cur s f hf, ?_,
    tokenInv_fetchHints uri cur s hinv,
    fun s₁ s₂ hstep hi => tokenInv_step s₁ s₂ hstep hi, ?_⟩
  · intro tk hreq
    simp [fetchHints, hf, hreq]
  · simp only [fetchHints, hf]
    exact lookupKV_setKV_self s.sourceFiles uri _
  · intro t ht
    exact Nat.ne_of_lt (hinv.1 t ht)
  · intro s₀ hi u g hg t₁ h₁ t₂ h₂ e₁ e₂
    have htok : t₁.token = t₂.token := Option.some.inj (e₁.trans e₂.symm)
    exact List.inj_on_of_nodup_map hi.2 h₁ h₂ htok

/-- The engine right after construction over one open Rust document "a":
"a" is tracked with pending token 0 and one unresolved fetch. -/
def c3s : SysState := construct ["a"] (some "a") cfg0 (fun _ => true) false

/-- Witness for C3 at the concrete state `c3s`: a second fetch for "a"
cancels token 0, records the fresh token 1, and issues a request carrying
token 1. -/
theorem C3_witness :
    lookupKV c3s.sourceFiles "a" = some ⟨some 0, "a"⟩
    ∧ TokenInv c3s
    ∧ ((∀ tk : Nat, (⟨some 0, "a"⟩ : RustSourceFile).inlaysRequest = some tk →
          tk ∈ (fetchHints "a" (some "a") c3s).cancelled)
      ∧ lookupKV (fetchHints "a" (some "a") c3s).sourceFiles "a"
          = some { (⟨some 0, "a"⟩ : RustSourceFile) with inlaysRequest := some c3s.nextToken }
      ∧ (fetchHints "a" (some "a") c3s).tasks
          = c3s.tasks ++ [⟨"a", c3s.nextToken, some "a"⟩]
      ∧ (∀ t ∈ c3s.tasks, t.token ≠ c3s.nextToken)
      ∧ TokenInv (fetchHints "a" (some "a") c3s)
      ∧ (∀ s₁ s₂ : SysState, Step s₁ s₂ → TokenInv s₁ → TokenInv s₂)
      ∧ (∀ s₀ : SysState, TokenInv s₀ → ∀ (u : String) (g : RustSourceFile),
          lookupKV s₀.sourceFiles u = some g →
          ∀ t₁ ∈ s₀.tasks, ∀ t₂ ∈ s₀.tasks,
            some t₁.token = g.inlaysRequest → some t₂.token = g.inlaysRequest → t₁ = t₂)) :=
  ⟨by decide, ⟨by decide, by decide⟩, C3 c3s "a" (some "a") ⟨some 0, "a"⟩ (by decide) ⟨by decide, by decide⟩⟩

/-! Trace for claim C1: request A (token 0) for document "a" is superseded
by request B (token 1); B resolves first, then A resolves late. -/

/-- Engine constructed over one open Rust document "a" (focused): the
initial resync issues request A with token 0. -/
def c1s0 : SysState := construct ["a"] (some "a") cfg0 (fun _ => true) false

/-- A configuration-change resync supersedes A: token 0 is cancelled,
request B is issued with token 1 and recorded as `inlaysRequest`. -/
def c1s1 : SysState := onConfigChangeSync c1s0

/-- B resolves first, with the chaining hint: rendered, and B's identity
check clears `inlaysRequest`. -/
def c1s2 : SysState := fetchResolve ⟨"a", 1, some "a"⟩ (Except.ok [hintC]) c1s1

/-- A resolves after B.  Its token 0 was cancelled when B superseded it,
but cancellation is cooperative, so the backend may still deliver a late
result; A resolves with the type hint. -/
def c1s3 : SysState := fetchResolve ⟨"a", 0, some "a"⟩ (Except.ok [hintT]) c1s2

/-- Counterexample to claim C1 as stated: in the trace `c1s0 → c1s3`,
request A (token 0) for "a" is superseded by request B (token 1) — token 0
cancelled, token 1 recorded — B resolves first and renders its chaining
hint, and then A, resolving after B with a late cooperative result, IS
rendered: the final namespace content is A's type hint, repainted over B's.
The render path of `syncAndRenderHints`'s `.then` handler performs no
token-identity check; only the `.finally` clearing of `inlaysRequest`
does. -/
theorem C1_counterexample :
    c1s1.tasks = [⟨"a", 0, some "a"⟩, ⟨"a", 1, some "a"⟩]
    ∧ c1s1.cancelled = [0]
    ∧ lookupKV c1s1.sourceFiles "a" = some ⟨some 1, "a"⟩
    ∧ c1s2.overlays "a" = [⟨5, " » -> i32", "CocRustChainingHint"⟩]
    ∧ c1s3.overlays "a" = [⟨3, ": : i32", "CocRustTypeHint"⟩] :=
  ⟨by decide, by decide, by decide, by decide, by decide⟩

/-- Claim C1, amended: if request A for a document is superseded by request
B (B's token is the recorded `inlaysRequest` and differs from A's), then
A's completion never clears B's `pendingRequest` marker — the `.finally`
identity check protects it for every outcome — and whenever A resolves
with a failure (the normal outcome of cancellation, since the backend
rejects cancelled requests it honors), A's completion renders nothing and
changes nothing except removing A's task from the pool.  Only a late
cooperatively-successful result of A can be rendered (see the
counterexample); the render path itself has no token-identity check. -/
theorem C1_amended (s : SysState) (A : FetchTask) (f : RustSourceFile) (tB : Nat)
    (outcome : Except Unit (List InlayHint))
    (hl : lookupKV s.sourceFiles A.uri = some f)
    (hB : f.inlaysRequest = some tB) (hne : tB ≠ A.token) :
    lookupKV (fetchResolve A outcome s).sourceFiles A.uri = some f
    ∧ (∀ e : Unit, ∀ u : String,
        (fetchResolve A (Except.error e) s).overlays u = s.overlays u)
    ∧ fetchResolve A (Except.error ()) s = { s with tasks := s.tasks.erase A } := by
  have hne' : f.inlaysRequest ≠ some A.token := by
    rw [hB]
    intro hc
    exact hne (Option.some.inj hc)
  refine ⟨fetchResolve_keeps_newer A outcome s f tB hl hB hne,
    fun e u => fetchResolve_overlays_error A e s u, ?_⟩
  rw [fetchResolve_error_eq]
  exact finallyClear_skip A _ f hl hne'

/-- Witness for the amended C1 in the trace state `c1s1`: request A (token
0) is superseded — token 1 is recorded for "a" — and A's failing completion
leaves token 1 in place and only removes A's task. -/
theorem C1_amended_witness :
    lookupKV c1s1.sourceFiles "a" = some ⟨some 1, "a"⟩
    ∧ ((⟨some 1, "a"⟩ : RustSourceFile).inlaysRequest = some 1)
    ∧ (1 : Nat) ≠ 0
    ∧ (lookupKV (fetchResolve ⟨"a", 0, some "a"⟩ (Except.error ()) c1s1).sourceFiles "a"
          = some ⟨some 1, "a"⟩
      ∧ (∀ e : Unit, ∀ u : String,
          (fetchResolve ⟨"a", 0, some "a"⟩ (Except.error e) c1s1).overlays u
            = c1s1.overlays u)
      ∧ fetchResolve ⟨"a", 0, some "a"⟩ (Except.error ()) c1s1
          = { c1s1 with tasks := c1s1.tasks.erase ⟨"a", 0, some "a"⟩ }) :=
  ⟨by decide, rfl, by decide,
    C1_amended c1s1 ⟨"a", 0, some "a"⟩ ⟨some 1, "a"⟩ 1 (Except.error ())
      (by decide) rfl (by decide)⟩

/-! Trace for claim C2: a fetch for "a" is issued while "a" is focused; the
focus then moves to "b" before the fetch resolves. -/

/-- Engine constructed over one open Rust document "a" (focused): the
initial resync issues a fetch for "a" capturing current = "a". -/
def c2s0 : SysState := construct ["a"] (some "a") cfg0 (fun _ => true) false

/-- The user focuses a different document "b" while the fetch for "a" is
still in flight. -/
def c2s1 : SysState := { c2s0 with activeDoc := some "b" }

/-- The fetch for "a" resolves with the type hint while "b" is displayed. -/
def c2s2 : SysState := fetchResolve ⟨"a", 0, some "a"⟩ (Except.ok [hintT]) c2s1

/-- Counterexample to claim C2 as stated: at the moment the fetch for "a"
resolves, the displayed document is "b", yet the result is rendered onto
"a" — the `.then` handler compares against the `current` document captured
when the resync pass started, not against the document displayed at
resolution time. -/
theorem C2_counterexample :
    c2s1.activeDoc = some "b"
    ∧ c2s1.tasks = [⟨"a", 0, some "a"⟩]
    ∧ c2s2.overlays "a" = [⟨3, ": : i32", "CocRustTypeHint"⟩] :=
  ⟨rfl, by decide, by decide⟩

/-- Claim C2, amended: a fetch result is rendered only if its document
equals the active document captured at the start of its resync pass (when
`await workspace.document` resolved); results for any other document are
discarded without painting.  The comparison is against the pass-captured
document, not the document displayed at the moment the fetch resolves. -/
theorem C2_amended (A : FetchTask) (outcome : Except Unit (List InlayHint)) (s : SysState) :
    (A.current ≠ some A.uri → ∀ u : String,
      (fetchResolve A outcome s).overlays u = s.overlays u)
    ∧ (∀ hints : List InlayHint, outcome = Except.ok hints →
        A.current = some A.uri → s.isRust A.uri = true →
        (fetchResolve A outcome s).overlays A.uri = hintChunks s.config hints) := by
  constructor
  · intro h u
    exact fetchResolve_overlays_other A outcome s h u
  · intro hints houtcome hcur hrust
    subst houtcome
    exact fetchResolve_overlays_render A hints s hcur hrust

/-- Witness for the amended C2 in the trace state `c2s1`: a completion for
"b-res" whose pass-captured current is "a" paints nothing anywhere, while
the completion for "a" with captured current "a" repaints "a" with the
computed chunks. -/
theorem C2_amended_witness :
    (∀ u : String,
      (fetchResolve ⟨"b-res", 7, some "a"⟩ (Except.ok [hintT]) c2s1).overlays u
        = c2s1.overlays u)
    ∧ (fetchResolve ⟨"a", 0, some "a"⟩ (Except.ok [hintT]) c2s1).overlays "a"
        = hintChunks c2s1.config [hintT] :=
  ⟨(C2_amended ⟨"b-res", 7, some "a"⟩ (Except.ok [hintT]) c2s1).1 (by decide),
    (C2_amended ⟨"a", 0, some "a"⟩ (Except.ok [hintT]) c2s1).2 [hintT] rfl rfl rfl⟩

/-! Trace for claim C4: document "a" is hinted, focus moves to "b", then
the user toggles the engine off. -/

/-- Engine constructed over two open Rust documents "a" and "b", with "a"
focused: the initial resync issues fetches for both (tokens 0 and 1). -/
def c4s0 : SysState := construct ["a", "b"] (some "a") cfg0 (fun _ => true) false

/-- The fetch for "a" resolves and renders the type hint onto "a"; the
fetch for "b" (token 1) is still in flight. -/
def c4s1 : SysState := fetchResolve ⟨"a", 0, some "a"⟩ (Except.ok [hintT]) c4s0

/-- The user focuses "b". -/
def c4s2 : SysState := { c4s1 with activeDoc := some "b" }

/-- The user toggles the engine off: Enabled -> Disabled. -/
def c4s3 : SysState := toggle c4s2

/-- Counterexample to claim C4 as stated: after the toggle to Disabled,
the previously-hinted document "a" still has its overlay ("toggle" clears
only the currently active document "b"), and the in-flight fetch for "b"
is still reachable in the task pool (its token is cancelled, but the task
remains unresolved and its completion can still run). -/
theorem C4_counterexample :
    c4s1.overlays "a" = [⟨3, ": : i32", "CocRustTypeHint"⟩]
    ∧ c4s3.inlayHintsEnabled = false
    ∧ c4s3.overlays "a" = [⟨3, ": : i32", "CocRustTypeHint"⟩]
    ∧ c4s3.tasks = [⟨"b", 1, some "a"⟩] :=
  ⟨by decide, by decide, by decide, by decide⟩

/-- Claim C4, amended: the toggle transition Enabled -> Disabled cancels
every tracked document's recorded pending request and detaches the
disposable listeners, and clears the overlays of the document active at
toggle time; overlays of other previously-hinted documents are left in
place, and in-flight fetch tasks remain in the pool until they resolve. -/
theorem C4_amended (s : SysState) (h : s.inlayHintsEnabled = true) :
    (toggle s).inlayHintsEnabled = false
    ∧ (toggle s).listenersAttached = false
    ∧ (∀ (uri : String) (f : RustSourceFile) (tk : Nat),
        lookupKV s.sourceFiles uri = some f → f.inlaysRequest = some tk →
        tk ∈ (toggle s).cancelled)
    ∧ (∀ d : String, s.activeDoc = some d → (toggle s).overlays d = [])
    ∧ (toggle s).tasks = s.tasks
    ∧ (∀ u : String, s.activeDoc ≠ some u → (toggle s).overlays u = s.overlays u) := by
  have htog : toggle s =
      match (dispose { s with inlayHintsEnabled := false }).activeDoc with
      | none => dispose { s with inlayHintsEnabled := false }
      | some d => clearNamespace d (dispose { s with inlayHintsEnabled := false }) := by
    unfold toggle
    rw [if_pos h]
  cases hd : s.activeDoc with
  | none =>
    rw [htog]
    have hd' : (dispose { s with inlayHintsEnabled := false }).activeDoc = none := hd
    rw [hd']
    refine ⟨rfl, rfl, ?_, ?_, rfl, ?_⟩
    · intro uri f tk hl hreq
      exact dispose_cancelled_mem { s with inlayHintsEnabled := false } uri f tk hl hreq
    · intro d hcontra
      exact absurd hcontra (by simp)
    · intro u hu
      rfl
  | some d =>
    rw [htog]
    have hd' : (dispose { s with inlayHintsEnabled := false }).activeDoc = some d := hd
    rw [hd']
    refine ⟨rfl, rfl, ?_, ?_, rfl, ?_⟩
    · intro uri f tk hl hreq
      exact dispose_cancelled_mem { s with inlayHintsEnabled := false } uri f tk hl hreq
    · intro d' hdd
      have : d = d' := Option.some.inj hdd
      subst this
      simp [clearNamespace]
    · intro u hu
      have hne : u ≠ d := fun hc => hu (by rw [hc])
      simp [clearNamespace, hne, dispose]

/-- Witness for the amended C4 at the trace state `c4s2` (enabled, "b"
active, "b"'s request pending with token 1). -/
theorem C4_amended_witness :
    c4s2.inlayHintsEnabled = true
    ∧ ((toggle c4s2).inlayHintsEnabled = false
      ∧ (toggle c4s2).listenersAttached = false
      ∧ (∀ (uri : String) (f : RustSourceFile) (tk : Nat),
          lookupKV c4s2.sourceFiles uri = some f → f.inlaysRequest = some tk →
          tk ∈ (toggle c4s2).cancelled)
      ∧ (∀ d : String, c4s2.activeDoc = some d → (toggle c4s2).overlays d = [])
      ∧ (toggle c4s2).tasks = c4s2.tasks
      ∧ (∀ u : String, c4s2.activeDoc ≠ some u → (toggle c4s2).overlays u = c4s2.overlays u)) :=
  ⟨by decide, C4_amended c4s2 (by decide)⟩

/-! Trace for claim C5: the engine is toggled off and then back on. -/

/-- Engine over one open Rust document "a", toggled off: listeners
detached, token 0 cancelled. -/
def c5s0 : SysState := toggle (construct ["a"] (some "a") cfg0 (fun _ => true) false)

/-- The engine is toggled back on: Disabled -> Enabled. -/
def c5s1 : SysState := toggle c5s0

/-- Counterexample to claim C5 as stated: after the Disabled -> Enabled
transition the engine is enabled again and a full resync ran (a fresh
fetch for "a" was issued), but the change-event listeners disposed at
toggle-off are NOT reattached: `toggle` only flips the flag and resyncs;
nothing re-registers the `workspace.on*` handlers. -/
theorem C5_counterexample :
    c5s0.inlayHintsEnabled = false
    ∧ c5s0.listenersAttached = false
    ∧ c5s1.inlayHintsEnabled = true
    ∧ c5s1.listenersAttached = false
    ∧ c5s1.tasks.map FetchTask.uri = ["a", "a"] :=
  ⟨by decide, by decide, by decide, by decide, by decide⟩

/-- Claim C5, amended: the toggle transition Disabled -> Enabled sets the
engine enabled and immediately performs a full resync across every entry
of the Registry — one fetch per tracked document, each carrying the
current active document — but it does not reattach the change-event
listeners: the listener state is whatever it already was (detached, after
a previous toggle-off disposed them). -/
theorem C5_amended (s : SysState) (h : s.inlayHintsEnabled = false) :
    (toggle s).inlayHintsEnabled = true
    ∧ (toggle s).listenersAttached = s.listenersAttached
    ∧ (toggle s).tasks.map FetchTask.uri
        = s.tasks.map FetchTask.uri ++ s.sourceFiles.map Prod.fst
    ∧ (∀ t ∈ (toggle s).tasks, t ∈ s.tasks ∨ t.current = s.activeDoc) := by
  have htog : toggle s = syncAndRenderHints { s with inlayHintsEnabled := true } := by
    unfold toggle
    rw [if_neg (by rw [h]; exact Bool.false_ne_true)]
  have hsync : syncAndRenderHints { s with inlayHintsEnabled := true }
      = s.sourceFiles.foldl (fun acc p => fetchHints p.1 s.activeDoc acc)
          { s with inlayHintsEnabled := true } := by
    unfold syncAndRenderHints
    rw [if_neg (by simp)]
  rw [htog, hsync]
  refine ⟨?_, ?_, ?_, ?_⟩
  · exact foldl_fetchHints_proj (fun st => st.inlayHintsEnabled)
      (fun st uri cur => fetchHints_inlayHintsEnabled uri cur st) s.sourceFiles s.activeDoc _
  · exact foldl_fetchHints_proj (fun st => st.listenersAttached)
      (fun st uri cur => fetchHints_listenersAttached uri cur st) s.sourceFiles s.activeDoc _
  · exact syncFold_tasks_uris s.sourceFiles s.activeDoc { s with inlayHintsEnabled := true }
      (fun p hp => mem_keys_of_mem s.sourceFiles p hp)
  · intro t ht
    exact syncFold_tasks_current s.sourceFiles s.activeDoc
      { s with inlayHintsEnabled := true } t ht

/-- Witness for the amended C5 at the trace state `c5s0` (disabled,
listeners detached, "a" tracked). -/
theorem C5_amended_witness :
    c5s0.inlayHintsEnabled = false
    ∧ ((toggle c5s0).inlayHintsEnabled = true
      ∧ (toggle c5s0).listenersAttached = c5s0.listenersAttached
      ∧ (toggle c5s0).tasks.map FetchTask.uri
          = c5s0.tasks.map FetchTask.uri ++ c5s0.sourceFiles.map Prod.fst
      ∧ (∀ t ∈ (toggle c5s0).tasks, t ∈ c5s0.tasks ∨ t.current = c5s0.activeDoc)) :=
  ⟨by decide, C5_amended c5s0 (by decide)⟩

/-! Trace for claim C6: document "a" is hinted; a configuration-change
resync (which clears nothing) issues a fetch that fails. -/

/-- Engine over one open Rust document "a" (focused). -/
def c6s0 : SysState := construct ["a"] (some "a") cfg0 (fun _ => true) false

/-- The initial fetch resolves and renders the type hint onto "a". -/
def c6s1 : SysState := fetchResolve ⟨"a", 0, some "a"⟩ (Except.ok [hintT]) c6s0

/-- A configuration change triggers a resync via `onConfigChange`: no
namespace is cleared, a fresh fetch (token 1) is issued for "a". -/
def c6s2 : SysState := onConfigChangeSync c6s1

/-- The fetch fails (backend error, retries exhausted, or cancellation
rejection). -/
def c6s3 : SysState := fetchResolve ⟨"a", 1, some "a"⟩ (Except.error ()) c6s2

/-- Counterexample to claim C6 as stated: the fetch for "a" fails, yet
"a"'s existing overlay is NOT cleared — a failed completion returns before
`renderHints`, and `renderHints` is the only place that clears before
drawing.  The hint survives because this resync was triggered by a
configuration change, which (unlike the edit/open/insert-leave handlers)
clears nothing up front. -/
theorem C6_counterexample :
    c6s1.overlays "a" = [⟨3, ": : i32", "CocRustTypeHint"⟩]
    ∧ c6s2.tasks = [⟨"a", 1, some "a"⟩]
    ∧ c6s3.overlays "a" = [⟨3, ": : i32", "CocRustTypeHint"⟩] :=
  ⟨by decide, by decide, by decide⟩

/-- Claim C6, amended: when a fetch for a document fails, its completion
draws nothing and clears nothing — every document's overlays are exactly
as they were before the resolution, and no error is surfaced.  The
clearing of existing hints is performed up front by the edit handler
(`onDidChangeTextDocument` leaves the changed document's namespace empty
before any fetch resolves), so in edit-triggered resyncs a failed fetch
manifests as hints disappearing; resyncs triggered by a configuration
change or by toggle-on clear nothing, and there a failed fetch leaves the
stale overlays in place. -/
theorem C6_amended (A : FetchTask) (s : SysState) :
    (∀ e : Unit, ∀ u : String,
      (fetchResolve A (Except.error e) s).overlays u = s.overlays u)
    ∧ (∀ uri : String, s.isRust uri = true →
        (onDidChangeTextDocument uri s).overlays uri = []) := by
  refine ⟨fun e u => fetchResolve_overlays_error A e s u, ?_⟩
  intro uri hrust
  unfold onDidChangeTextDocument
  rw [if_pos hrust]
  dsimp only
  split
  · simp [clearNamespace]
  · rw [congrFun (syncAndRenderHints_overlays (clearNamespace uri s)) uri]
    simp [clearNamespace]

/-- Witness for the amended C6 at the trace state `c6s2`: the failing
completion of the re-fetch leaves all overlays unchanged, and an edit of
"a" clears its namespace up front. -/
theorem C6_amended_witness :
    (∀ u : String,
      (fetchResolve ⟨"a", 1, some "a"⟩ (Except.error ()) c6s2).overlays u = c6s2.overlays u)
    ∧ (onDidChangeTextDocument "a" c6s2).overlays "a" = [] :=
  ⟨(C6_amended ⟨"a", 1, some "a"⟩ c6s2).1 (), (C6_amended ⟨"a", 1, some "a"⟩ c6s2).2 "a" rfl⟩

end InlayHints
